import Mathlib

/-!
Shallow embedding of the process-inspection core of the dbg-udbg repository:
the Linux procfs accessors and ptrace wait loop (src/nix/process.rs) and the
Windows process utilities (src/os/windows/mod.rs).  Machine integers are
modelled as `Nat` bit patterns (a raw waitpid status is a C `int` and fits in
32 bits); fallible operations return `Option` or `Except`; Rust panics are
modelled as an `Except.error` / `Option.none` outcome.
-/

namespace Spec2Proof

/-! ## Linux wait-status macros

The libc crate (Linux) definitions used by `Process::wait`:
`WIFEXITED(s) = (s & 0x7f) == 0`, `WEXITSTATUS(s) = (s >> 8) & 0xff`,
`WIFSIGNALED(s) = ((s & 0x7f) + 1) as i8 >= 2`, `WTERMSIG(s) = s & 0x7f`,
`WIFSTOPPED(s) = (s & 0xff) == 0x7f`, `WSTOPSIG(s) = WEXITSTATUS(s)`,
`WIFCONTINUED(s) = s == 0xffff`.

A status is modelled by its 32-bit pattern as a `Nat`.  Every shift in the
source is immediately masked (`& 0xff`, `& 0xffff`), so the arithmetic shift
of the signed representation agrees with the logical shift `>>>` of the bit
pattern. -/

/-- Truncating cast of a bit pattern to Rust `i8`, as in `x as i8`. -/
def asI8 (x : Nat) : Int :=
  if x % 256 < 128 then (x % 256 : Int) else (x % 256 : Int) - 256

/-- Rust libc `WIFEXITED`. -/
def WIFEXITED (s : Nat) : Bool := (s &&& 0x7f) == 0

/-- Rust libc `WEXITSTATUS`. -/
def WEXITSTATUS (s : Nat) : Nat := (s >>> 8) &&& 0xff

/-- Rust libc `WIFSIGNALED`. -/
def WIFSIGNALED (s : Nat) : Bool := decide (2 ≤ asI8 ((s &&& 0x7f) + 1))

/-- Rust libc `WTERMSIG`. -/
def WTERMSIG (s : Nat) : Nat := s &&& 0x7f

/-- Rust libc `WIFSTOPPED`. -/
def WIFSTOPPED (s : Nat) : Bool := (s &&& 0xff) == 0x7f

/-- Rust libc `WSTOPSIG`. -/
def WSTOPSIG (s : Nat) : Nat := WEXITSTATUS s

/-- Rust libc `WIFCONTINUED`. -/
def WIFCONTINUED (s : Nat) : Bool := s == 0xffff

/-- Linux ptrace event code delivered on clone. -/
def PTRACE_EVENT_CLONE : Nat := 3

/-- Linux ptrace event code delivered on exec. -/
def PTRACE_EVENT_EXEC : Nat := 4

/-- The `WaitStatus` variants produced by `Process::wait` (src/nix). -/
inductive WaitStatus where
  | Exit (code : Nat)
  | Signal (sig : Nat)
  | Stop (sig : Nat)
  | Clone (tid : Int)
  | Exec
  | Continue
deriving DecidableEq, Repr

/-- The two panic messages reachable from `Process::wait`. -/
inductive WaitPanic where
  | geteventmsgFailed
  | invalidWaitpid
deriving DecidableEq, Repr

/-- Classification performed by `Process::wait` on one raw waitpid status
(src/nix/process.rs, lines 130-163).  The result of the
`PTRACE_GETEVENTMSG` call in the clone branch is modelled by `eventmsg`:
`some tid` when the call succeeds and delivers `tid`, `none` when it fails
(in which case the source panics).  The final `panic!("invalid waitpid")`
is the `invalidWaitpid` error. -/
def wait_classify (status : Nat) (eventmsg : Option Int) :
    Except WaitPanic WaitStatus :=
  if WIFEXITED status then .ok (.Exit (WEXITSTATUS status))
  else if WIFSIGNALED status then .ok (.Signal (WTERMSIG status))
  else if WIFSTOPPED status then
    let extra := (status >>> 16) &&& 0xffff
    if extra == PTRACE_EVENT_CLONE then
      match eventmsg with
      | some newTid => .ok (.Clone newTid)
      | none => .error .geteventmsgFailed
    else if extra == PTRACE_EVENT_EXEC then .ok .Exec
    else .ok (.Stop (WSTOPSIG status))
  else if WIFCONTINUED status then .ok .Continue
  else .error .invalidWaitpid

/-- C1: `wait` classifies every raw waitpid status in the order of §4.7:
a normal exit yields `Exit(code)`; otherwise a kill by signal yields
`Signal(signo)`; otherwise a stop extracts the ptrace event code from the
upper 16 bits of the status — a CLONE event yields `Clone(new_tid)` fetched
via GETEVENTMSG and is fatal when that ptrace call fails, an EXEC event
yields `Exec`, and any other stop yields `Stop(signo)`; otherwise a
continue notification yields `Continue`; a status matching none of these
is fatal. -/
theorem wait_classify_spec (s : Nat) (em : Option Int) :
    (WIFEXITED s = true → wait_classify s em = .ok (.Exit (WEXITSTATUS s))) ∧
    (WIFEXITED s = false → WIFSIGNALED s = true →
      wait_classify s em = .ok (.Signal (WTERMSIG s))) ∧
    (WIFEXITED s = false → WIFSIGNALED s = false → WIFSTOPPED s = true →
      ((s >>> 16) &&& 0xffff = PTRACE_EVENT_CLONE →
        (∀ tid, em = some tid → wait_classify s em = .ok (.Clone tid)) ∧
        (em = none → wait_classify s em = .error .geteventmsgFailed)) ∧
      ((s >>> 16) &&& 0xffff = PTRACE_EVENT_EXEC →
        wait_classify s em = .ok .Exec) ∧
      ((s >>> 16) &&& 0xffff ≠ PTRACE_EVENT_CLONE →
        (s >>> 16) &&& 0xffff ≠ PTRACE_EVENT_EXEC →
        wait_classify s em = .ok (.Stop (WSTOPSIG s)))) ∧
    (WIFEXITED s = false → WIFSIGNALED s = false → WIFSTOPPED s = false →
      WIFCONTINUED s = true → wait_classify s em = .ok .Continue) ∧
    (WIFEXITED s = false → WIFSIGNALED s = false → WIFSTOPPED s = false →
      WIFCONTINUED s = false → wait_classify s em = .error .invalidWaitpid) := by
  unfold wait_classify
  refine ⟨?_, ?_, ?_, ?_, ?_⟩ <;> intros <;>
    simp_all [PTRACE_EVENT_CLONE, PTRACE_EVENT_EXEC]

/-- Witness for C1: the synthetic status `0x3057f` is a ptrace stop with
event code `PTRACE_EVENT_CLONE`; with a GETEVENTMSG result of `1234` the
classifier yields `Clone 1234`. -/
theorem wait_classify_spec_witness :
    wait_classify 0x3057f (some 1234) = .ok (.Clone 1234) := by
  have h := (wait_classify_spec 0x3057f (some 1234)).2.2.1
    (by decide) (by decide) (by decide)
  exact (h.1 (by decide)).1 1234 rfl

/-! ## Windows Handle validity (src/os/windows/mod.rs, lines 48-57)

A raw Windows HANDLE is a pointer value, modelled as an `Int`;
`INVALID_HANDLE_VALUE` is the pointer value `-1` and the null handle is `0`. -/

/-- Windows constant `INVALID_HANDLE_VALUE`. -/
def INVALID_HANDLE_VALUE : Int := -1

/-- The null HANDLE value. -/
def NULL_HANDLE : Int := 0

/-- Source `Handle::is_valid`: `self.0 != INVALID_HANDLE_VALUE`. -/
def Handle.is_valid (h : Int) : Bool := h != INVALID_HANDLE_VALUE

/-- Source `self.is_null()` on the raw pointer: true exactly on null. -/
def Handle.is_null (h : Int) : Bool := h == NULL_HANDLE

/-- Source `Handle::success`: `self.is_valid() && !self.is_null()`. -/
def Handle.success (h : Int) : Bool := Handle.is_valid h && !(Handle.is_null h)

/-- C10: `Handle::is_valid` returns true for the null handle, since it only
compares against `INVALID_HANDLE_VALUE`; the stricter `Handle::success` is
true exactly when the raw handle is neither null nor
`INVALID_HANDLE_VALUE`. -/
theorem handle_success_iff (h : Int) :
    Handle.is_valid NULL_HANDLE = true ∧
    (Handle.success h = true ↔ h ≠ NULL_HANDLE ∧ h ≠ INVALID_HANDLE_VALUE) := by
  constructor
  · decide
  · simp [Handle.success, Handle.is_valid, Handle.is_null, NULL_HANDLE,
      INVALID_HANDLE_VALUE, and_comm]

/-! ## Windows write_process_memory (src/os/windows/mod.rs, lines 318-345) -/

/-- Windows page-protection constant `PAGE_EXECUTE_READWRITE`. -/
def PAGE_EXECUTE_READWRITE : Nat := 0x40

/-- The page-protection state of the written range in the target process. -/
structure PageState where
  protect : Nat
deriving DecidableEq, Repr

/-- Model of `VirtualProtectEx`: sets the protection of the range and
returns the previous protection through the out-parameter. -/
def VirtualProtectEx (m : PageState) (newProtect : Nat) : PageState × Nat :=
  (⟨newProtect⟩, m.protect)

/-- Source `write_process_memory`: relax the protection to RWX, attempt the
write, then restore the protection that the first `VirtualProtectEx`
returned into `old_protect`.  `writeOk` is the success of the inner
`WriteProcessMemory` call and `written` the byte count it reports.  The
returned triple is the final page state, the protection in force while the
write executed, and the function result (`written` on success, `0` on
failure).  The source has a single exit path: the restoring
`VirtualProtectEx` runs whether or not the write succeeded. -/
def write_process_memory (m : PageState) (writeOk : Bool) (written : Nat) :
    PageState × Nat × Nat :=
  let step1 := VirtualProtectEx m PAGE_EXECUTE_READWRITE
  let old_protect := step1.2
  let duringWrite := step1.1.protect
  let result := writeOk
  let step2 := VirtualProtectEx step1.1 old_protect
  (step2.1, duringWrite, if result then written else 0)

/-- C3: `write_process_memory` changes the page protection of the target
range to RWX for the duration of the write and restores the previously
returned protection on every exit path — also when the inner
`WriteProcessMemory` fails (`writeOk = false`) — so the page protection
after the call equals the protection before the call. -/
theorem write_process_memory_restores_protect
    (m : PageState) (writeOk : Bool) (written : Nat) :
    (write_process_memory m writeOk written).1 = m ∧
    (write_process_memory m writeOk written).2.1 = PAGE_EXECUTE_READWRITE :=
  ⟨rfl, rfl⟩

/-! ## Linux process_environ (src/nix/process.rs, lines 35-46)

The source reads `/proc/pid/environ`, creates an empty `HashMap`, then
evaluates `data.split(|b| *b == 0u8).map(closure)` where the closure would
insert a parsed NAME=VALUE pair into the map.  Rust iterator adapters are
lazy: `Iterator::map` only runs its closure when the iterator is consumed,
and this iterator chain is an expression statement that is dropped
unconsumed, so the closure never runs and the map is returned empty.  The
embedding therefore constructs the split but discards its mapping. -/

/-- Source `process_environ` over the byte content of
`/proc/pid/environ`, as a list of name/value pairs of byte strings. -/
def process_environ (data : List Nat) : List (List Nat × List Nat) :=
  let result : List (List Nat × List Nat) := []
  let _unconsumedIter := data.splitOn 0
  result

/-- Byte content `PATH=/bin` followed by the NUL terminator: one complete
NAME=VALUE record. -/
def envSample : List Nat := [80, 65, 84, 72, 61, 47, 98, 105, 110, 0]

/-- C2 (code bug): for an environ file holding the single record
`PATH=/bin` — whose first NUL-separated chunk is a NAME=VALUE record
containing the separator `=` (byte 61) — `process_environ` still returns
the empty map, because the closure that would populate the map sits in an
iterator that is never consumed. -/
theorem process_environ_returns_empty :
    process_environ envSample = [] ∧
    (envSample.splitOn 0).head? = some [80, 65, 84, 72, 61, 47, 98, 105, 110] := by
  exact ⟨rfl, by decide⟩

/-! ## Memory read (§4.2): Linux Process::read and Windows ReadMemory

The OS-level outcome of one read attempt is modelled by
`osRead : Option (List Nat)`: `some bs` when the kernel copied the bytes
`bs` into the start of the caller buffer (a short read gives
`bs.length < buf.length`), and `none` when the syscall failed, for example
on a bad address.  Neither implementation panics: failures flow into a
byte count of `0` and then into `Option.none`. -/

/-- The caller buffer after the OS filled in the bytes it read. -/
def fillBuf (buf : List Nat) (osRead : Option (List Nat)) : List Nat :=
  match osRead with
  | some bs => bs ++ buf.drop bs.length
  | none => buf

/-- Source `Process::read_mem` (Linux):
`mem.seek(..).and_then(|_| mem.read(buf)).unwrap_or(0)` — the updated
buffer together with the byte count, where any seek/read error is mapped
to a count of `0`. -/
def read_mem (buf : List Nat) (osRead : Option (List Nat)) : List Nat × Nat :=
  (fillBuf buf osRead, (osRead.getD []).length)

/-- Source `Process::read` (Linux), after the memory channel step:
`openOk` is whether `/proc/pid/mem` was available (an open failure makes
the `?` operator return `None`); a positive count yields
`Some(&mut buf[..result])`, otherwise `None`. -/
def linux_read (buf : List Nat) (openOk : Bool) (osRead : Option (List Nat)) :
    Option (List Nat) :=
  if openOk then
    let r := read_mem buf osRead
    if 0 < r.2 then some (r.1.take r.2) else none
  else none

/-- Source `read_process_memory` (Windows): the count reported by
`ReadProcessMemory` on success, `0` on failure. -/
def read_process_memory (osRead : Option (List Nat)) : Nat :=
  (osRead.getD []).length

/-- Source `ReadMemory for Process` (Windows): a positive count yields
`Some(&mut data[..r])`, otherwise `None`. -/
def windows_read_memory (buf : List Nat) (osRead : Option (List Nat)) :
    Option (List Nat) :=
  let r := read_process_memory osRead
  if 0 < r then some ((fillBuf buf osRead).take r) else none

/-- C4: on both the Linux and the Windows implementation, `read` returns
`Some` of the prefix of the buffer that was actually read when at least
one byte was read, returns `None` when zero bytes were read, and a failed
OS read (bad address) flows into `None` rather than a panic — both
embeddings are total functions into `Option`. -/
theorem read_returns_bytes_read
    (buf : List Nat) (openOk : Bool) (osRead : Option (List Nat)) :
    (∀ bs, osRead = some bs → bs ≠ [] →
      linux_read buf true osRead = some bs ∧
      windows_read_memory buf osRead = some bs) ∧
    (osRead = some [] ∨ osRead = none →
      linux_read buf openOk osRead = none ∧
      windows_read_memory buf osRead = none) ∧
    (linux_read buf false osRead = none) := by
  refine ⟨?_, ?_, ?_⟩
  · rintro bs rfl hbs
    have hlen : 0 < bs.length := List.length_pos.mpr hbs
    constructor
    · simp [linux_read, read_mem, fillBuf, hlen, List.take_left]
    · simp [windows_read_memory, read_process_memory, fillBuf, hlen,
        List.take_left]
  · rintro (rfl | rfl) <;>
      simp [linux_read, windows_read_memory, read_mem, read_process_memory,
        fillBuf]
  · simp [linux_read]

/-- Witness for C4: reading two bytes into a three-byte buffer returns the
two bytes actually read; a zero-byte read returns `None`. -/
theorem read_returns_bytes_read_witness :
    linux_read [1, 2, 3] true (some [9, 9]) = some [9, 9] ∧
    windows_read_memory [1, 2, 3] (some [9, 9]) = some [9, 9] ∧
    linux_read [1, 2, 3] true (some []) = none := by
  obtain ⟨h1, h2⟩ :=
    (read_returns_bytes_read [1, 2, 3] true (some [9, 9])).1 [9, 9] rfl
      (by decide)
  exact ⟨h1, h2,
    ((read_returns_bytes_read [1, 2, 3] true (some [])).2.1 (Or.inl rfl)).1⟩

/-! ## Linux process_cmdline (src/nix/process.rs, lines 9-18)

The source splits the byte content of `/proc/pid/cmdline` on NUL and then
pops trailing empty entries: `while result.last() is empty, result.pop()`.
The chunks pass through `String::from_utf8_unchecked`, which is
byte-transparent, so tokens are modelled as byte lists; a token is empty
exactly when its byte list is. -/

/-- The trailing-pop loop of `process_cmdline`. -/
def dropTrailingEmpty (l : List (List Nat)) : List (List Nat) :=
  (l.reverse.dropWhile List.isEmpty).reverse

/-- Source `process_cmdline` over the byte content of the cmdline file. -/
def process_cmdline (data : List Nat) : List (List Nat) :=
  dropTrailingEmpty (data.splitOn 0)

/-- Decidable statement that a token sequence has no trailing empty
token. -/
def noTrailingEmpty (l : List (List Nat)) : Bool :=
  match l.getLast? with
  | none => true
  | some x => !x.isEmpty

/-- Every element of every chunk produced by `splitOnP p` refutes `p`. -/
theorem eq_false_of_mem_splitOnP (p : α → Bool) (xs : List α) :
    ∀ l ∈ xs.splitOnP p, ∀ y ∈ l, p y = false := by
  induction xs with
  | nil =>
    intro l hl y hy
    simp only [List.splitOnP_nil, List.mem_singleton] at hl
    subst hl
    simp at hy
  | cons a tl ih =>
    intro l hl y hy
    rw [List.splitOnP_cons] at hl
    by_cases hpa : p a
    · rw [if_pos hpa] at hl
      rcases List.mem_cons.mp hl with rfl | h
      · simp at hy
      · exact ih l h y hy
    · rw [if_neg hpa] at hl
      rcases hsp : tl.splitOnP p with _ | ⟨hd, tlr⟩
      · exact absurd hsp (List.splitOnP_ne_nil p tl)
      · rw [hsp, List.modifyHead_cons] at hl
        rcases List.mem_cons.mp hl with rfl | h
        · rcases List.mem_cons.mp hy with rfl | hm
          · simpa using hpa
          · exact ih hd (by rw [hsp]; exact List.mem_cons_self hd tlr) y hm
        · exact ih l (by rw [hsp]; exact List.mem_cons_of_mem hd h) y hy

/-- The NUL separator does not occur inside any chunk of `splitOn 0`. -/
theorem zero_not_mem_of_mem_splitOn (data : List Nat) :
    ∀ l ∈ data.splitOn 0, (0 : Nat) ∉ l := by
  intro l hl h0
  simp only [List.splitOn] at hl
  have := eq_false_of_mem_splitOnP (fun b => b == 0) data l hl 0 h0
  simp at this

/-- Membership is preserved from `dropWhile` back to the full list. -/
theorem mem_of_mem_dropWhile (p : α → Bool) (l : List α) :
    ∀ x ∈ l.dropWhile p, x ∈ l := by
  induction l with
  | nil => simp
  | cons a t ih =>
    intro x hx
    rw [List.dropWhile_cons] at hx
    split at hx
    · exact List.mem_cons_of_mem a (ih x hx)
    · exact hx

/-- Membership is preserved from the trimmed token sequence back to the
untrimmed one. -/
theorem mem_of_mem_dropTrailingEmpty (l : List (List Nat)) :
    ∀ x ∈ dropTrailingEmpty l, x ∈ l := by
  intro x hx
  unfold dropTrailingEmpty at hx
  rw [List.mem_reverse] at hx
  exact List.mem_reverse.mp (mem_of_mem_dropWhile List.isEmpty l.reverse x hx)

/-- The trimmed token sequence never ends in an empty token. -/
theorem noTrailingEmpty_dropTrailingEmpty (l : List (List Nat)) :
    noTrailingEmpty (dropTrailingEmpty l) = true := by
  unfold noTrailingEmpty dropTrailingEmpty
  rw [List.getLast?_reverse]
  have h := List.head?_dropWhile_not List.isEmpty l.reverse
  rcases hh : (l.reverse.dropWhile List.isEmpty).head? with _ | x
  · simp
  · rw [hh] at h
    simp [h]

/-- C5: `process_cmdline` returns the NUL-split tokens of the cmdline file
with every trailing empty token removed: the result has no trailing empty
element, and joining it with NULs then re-splitting on NUL yields the same
sequence, or the same sequence plus one trailing empty token (the latter
happens exactly for the empty sequence). -/
theorem process_cmdline_trims (data : List Nat) :
    noTrailingEmpty (process_cmdline data) = true ∧
    (([(0 : Nat)].intercalate (process_cmdline data)).splitOn 0 =
        process_cmdline data ∨
      ([(0 : Nat)].intercalate (process_cmdline data)).splitOn 0 =
        process_cmdline data ++ [[]]) := by
  constructor
  · exact noTrailingEmpty_dropTrailingEmpty _
  · by_cases h : process_cmdline data = []
    · right
      rw [h]
      rfl
    · left
      apply List.splitOn_intercalate
      · intro l hl
        unfold process_cmdline at hl
        exact zero_not_mem_of_mem_splitOn data l
          (mem_of_mem_dropTrailingEmpty _ l hl)
      · exact h

/-! ## Lazy memory channel (src/nix/process.rs, lines 48-51 and 90-98)

The `Process` struct carries `mem: RwLock<Option<Box<File>>>`, set to
`None` by `from_pid`.  Each `read` first checks the cache under the read
guard; when absent it opens `/proc/pid/mem` and installs the file under
the write guard (the `?` operator returns early on an open failure, so a
failed open installs nothing).  The state of the cache is modelled as
`Option Unit`; each call reports the number of open attempts and of
successful opens it performed. -/

/-- Cache state created by `Process::from_pid`: the channel starts
absent. -/
def mem_channel_init : Option Unit := none

/-- The channel handling of one `Process::read` call: `openOk` is whether
`File::open` would succeed.  Result: new cache state, open attempts made
by this call, successful opens made by this call. -/
def read_channel_step (cache : Option Unit) (openOk : Bool) :
    Option Unit × Nat × Nat :=
  match cache with
  | some c => (some c, 0, 0)
  | none => if openOk then (some (), 1, 1) else (none, 1, 0)

/-- A sequence of `read` calls from a given cache state: final cache state
and total number of successful opens. -/
def run_reads (cache : Option Unit) : List Bool → Option Unit × Nat
  | [] => (cache, 0)
  | ok :: rest =>
    let s := read_channel_step cache ok
    let r := run_reads s.1 rest
    (r.1, s.2.2 + r.2)

/-- Once the channel is cached, later reads never open again. -/
theorem run_reads_cached (oks : List Bool) :
    run_reads (some ()) oks = (some (), 0) := by
  induction oks with
  | nil => rfl
  | cons ok rest ih => simp [run_reads, read_channel_step, ih]

/-- From a fresh process, any sequence of reads opens successfully at most
once. -/
theorem run_reads_fresh_le_one (oks : List Bool) :
    (run_reads none oks).2 ≤ 1 := by
  induction oks with
  | nil => simp [run_reads]
  | cons ok rest ih =>
    cases ok with
    | false => simpa [run_reads, read_channel_step] using ih
    | true => simp [run_reads, read_channel_step, run_reads_cached]

/-- C6: the memory channel of a Linux `Process` starts unopened;
`/proc/pid/mem` is successfully opened at most once across any sequence
of `read` calls; the first read that finds the cache absent opens and
installs the channel; and every read that finds the cache present reuses
it, performing no open attempt at all. -/
theorem mem_channel_opened_at_most_once (oks : List Bool) (laterOk : Bool) :
    mem_channel_init = none ∧
    (run_reads mem_channel_init oks).2 ≤ 1 ∧
    read_channel_step none true = (some (), 1, 1) ∧
    read_channel_step (some ()) laterOk = (some (), 0, 0) :=
  ⟨rfl, run_reads_fresh_le_one oks, rfl, rfl⟩

/-! ## Windows ProcessInfo::enumerate (src/os/windows/mod.rs, lines 846-865)

The source maps every toolhelp snapshot entry to a `ProcessInfo` whose
`pid` and `name` come from the snapshot record; it then tries
`Process::open` and, inside `Option::map`, fills `wow64`, `path` and
`cmdline`.  When the open fails (the process disappeared mid-walk), the
`map` closure does not run and the defaults remain; the entry is still
yielded.  The snapshot walk is modelled as a list of `(pid, exe name)`
pairs and the open-plus-queries as an oracle
`openResult : Nat → Option WinProcDetail`. -/

/-- Outcome of a successful `Process::open` followed by the `is_wow64`,
`image_path` and `cmdline` queries (each of the last two may fail on its
own, leaving that field at its default). -/
structure WinProcDetail where
  wow64 : Bool
  path : Option String
  cmdline : Option String

/-- Snapshot record of one process, as produced by the enumeration. -/
structure ProcessInfo where
  pid : Nat
  name : String
  wow64 : Bool
  path : String
  cmdline : String
deriving DecidableEq, Repr

/-- The per-entry closure of `ProcessInfo::enumerate`. -/
def enumerate_entry (openResult : Nat → Option WinProcDetail)
    (e : Nat × String) : ProcessInfo :=
  let result : ProcessInfo :=
    { pid := e.1, name := e.2, wow64 := false, path := "", cmdline := "" }
  match openResult e.1 with
  | none => result
  | some d =>
    { result with
      wow64 := d.wow64
      path := d.path.getD result.path
      cmdline := d.cmdline.getD result.cmdline }

/-- Source `ProcessInfo::enumerate`: one output record per snapshot
entry. -/
def ProcessInfo.enumerate (snapshot : List (Nat × String))
    (openResult : Nat → Option WinProcDetail) : List ProcessInfo :=
  snapshot.map (enumerate_entry openResult)

/-- Projecting an enumerated record back to its snapshot entry succeeds
whether or not the open succeeded. -/
theorem enumerate_entry_proj (openResult : Nat → Option WinProcDetail)
    (e : Nat × String) :
    ((enumerate_entry openResult e).pid, (enumerate_entry openResult e).name)
      = e := by
  cases h : openResult e.1 <;> simp [enumerate_entry, h]

/-- A snapshot of two processes. -/
def exSnapshot : List (Nat × String) := [(1, "a"), (2, "b")]

/-- An open oracle under which process 1 has disappeared and process 2
opens fine. -/
def exOpen : Nat → Option WinProcDetail := fun pid =>
  if pid == 2 then some ⟨true, some ("p"), some ("c")⟩ else none

/-- C8 counterexample: with process 1 unopenable, the enumeration does not
skip its entry — the entry is yielded with pid and name from the snapshot
and default detail fields — so the output is not the claimed
one-element list holding only process 2. -/
theorem enumerate_does_not_skip :
    ProcessInfo.enumerate exSnapshot exOpen =
      [⟨1, "a", false, "", ""⟩, ⟨2, "b", true, "p", "c"⟩] ∧
    ProcessInfo.enumerate exSnapshot exOpen ≠ [⟨2, "b", true, "p", "c"⟩] := by
  constructor
  · rfl
  · decide

/-- C8 (amended): a per-entry open failure never aborts or truncates the
enumeration — every snapshot entry yields exactly one record carrying its
pid and name — and an entry whose open fails is yielded with default
detail fields instead of being skipped. -/
theorem enumerate_tolerates_entry_failures (snapshot : List (Nat × String))
    (openResult : Nat → Option WinProcDetail) :
    (ProcessInfo.enumerate snapshot openResult).map
        (fun r => (r.pid, r.name)) = snapshot ∧
    (∀ pid name, (pid, name) ∈ snapshot → openResult pid = none →
      (⟨pid, name, false, "", ""⟩ : ProcessInfo) ∈
        ProcessInfo.enumerate snapshot openResult) := by
  constructor
  · unfold ProcessInfo.enumerate
    rw [List.map_map]
    have h : ((fun r : ProcessInfo => (r.pid, r.name)) ∘
        enumerate_entry openResult) = id := by
      funext e
      exact enumerate_entry_proj openResult e
    rw [h, List.map_id]
  · intro pid name hmem hopen
    have : enumerate_entry openResult (pid, name) =
        ⟨pid, name, false, "", ""⟩ := by
      simp [enumerate_entry, hopen]
    exact this ▸ List.mem_map_of_mem (enumerate_entry openResult) hmem

/-- Witness for C8 (amended): in the two-process snapshot with process 1
unopenable, process 1 is still yielded, with default detail fields. -/
theorem enumerate_tolerates_entry_failures_witness :
    (⟨1, "a", false, "", ""⟩ : ProcessInfo) ∈
      ProcessInfo.enumerate exSnapshot exOpen :=
  (enumerate_tolerates_entry_failures exSnapshot exOpen).2 1 ("a")
    (by decide) rfl

/-! ## Windows ExceptionRecord::copy (src/os/windows/mod.rs, lines 290-301)

Both the winapi `EXCEPTION_RECORD.ExceptionInformation` and the target
`ExceptionRecord.params` are fixed arrays of length
`EXCEPTION_MAXIMUM_PARAMETERS`; they are modelled as lists whose length is
stated as a hypothesis.  A Rust indexing panic is modelled as `none`. -/

/-- Windows constant `EXCEPTION_MAXIMUM_PARAMETERS`. -/
def EXCEPTION_MAXIMUM_PARAMETERS : Nat := 15

/-- The winapi `EXCEPTION_RECORD` fields read by `copy`. -/
structure EXCEPTION_RECORD where
  ExceptionCode : Nat
  ExceptionFlags : Nat
  ExceptionRecord : Nat
  ExceptionAddress : Nat
  NumberParameters : Nat
  ExceptionInformation : List Nat

/-- The crate-side `ExceptionRecord` struct. -/
structure ExceptionRecord where
  code : Nat
  flags : Nat
  record : Nat
  address : Nat
  param_num : Nat
  params : List Nat

/-- The `for i in 0..NumberParameters` loop of `copy`, copying
`info[i]` into `params[i]` for `k` iterations starting at index `i`.
Rust evaluates the right-hand side first, so an out-of-bounds read of
`info` panics before the store; either out-of-bounds access is `none`. -/
def copyLoop (info : List Nat) : Nat → Nat → List Nat → Option (List Nat)
  | _, 0, params => some params
  | i, k + 1, params =>
    match info[i]? with
    | none => none
    | some v =>
      if i < params.length then copyLoop info (i + 1) k (params.set i v)
      else none

/-- Source `ExceptionRecord::copy`: copy the scalar fields and the first
`NumberParameters` entries of `ExceptionInformation`; `none` models the
indexing panic. -/
def ExceptionRecord.copy (self : ExceptionRecord) (r : EXCEPTION_RECORD) :
    Option ExceptionRecord :=
  (copyLoop r.ExceptionInformation 0 r.NumberParameters self.params).map
    fun ps =>
      { code := r.ExceptionCode
        flags := r.ExceptionFlags
        record := r.ExceptionRecord
        address := r.ExceptionAddress
        param_num := r.NumberParameters
        params := ps }

/-- When every visited index is in bounds, the copy loop succeeds and
writes exactly the window `[i, i+k)` from `info`. -/
theorem copyLoop_some_spec (info : List Nat) :
    ∀ (k i : Nat) (params : List Nat), i + k ≤ info.length →
      i + k ≤ params.length →
      ∃ ps, copyLoop info i k params = some ps ∧
        ps.length = params.length ∧
        (∀ j, j < i ∨ i + k ≤ j → ps[j]? = params[j]?) ∧
        (∀ j, i ≤ j → j < i + k → ps[j]? = info[j]?) := by
  intro k
  induction k with
  | zero =>
    intro i params _ _
    exact ⟨params, rfl, rfl, fun j _ => rfl, fun j h1 h2 => absurd h2 (by omega)⟩
  | succ k ih =>
    intro i params hinfo hparams
    have hilt : i < info.length := by omega
    have hplt : i < params.length := by omega
    obtain ⟨ps, hps, hlen, hout, hin⟩ :=
      ih (i + 1) (params.set i info[i]) (by omega) (by simpa using by omega)
    refine ⟨ps, ?_, by simpa using hlen, ?_, ?_⟩
    · rw [copyLoop, List.getElem?_eq_getElem hilt]
      simp only [hplt, if_pos]
      exact hps
    · intro j hj
      have hji : j ≠ i := by omega
      have h1 : ps[j]? = (params.set i info[i])[j]? := hout j (by omega)
      rw [h1, List.getElem?_set_ne (by omega)]
    · intro j hj1 hj2
      rcases Nat.eq_or_lt_of_le hj1 with rfl | hlt
      · have h1 : ps[i]? = (params.set i info[i])[i]? := hout i (by omega)
        rw [h1, List.getElem?_set_self hplt, List.getElem?_eq_getElem hilt]
      · exact hin j (by omega) (by omega)

/-- When the requested count overruns the arrays, the copy loop hits an
out-of-bounds index and panics. -/
theorem copyLoop_none_of_overflow (info : List Nat) :
    ∀ (k i : Nat) (params : List Nat), params.length = info.length →
      i ≤ info.length → info.length < i + k →
      copyLoop info i k params = none := by
  intro k
  induction k with
  | zero => intro i params _ h1 h2; omega
  | succ k ih =>
    intro i params hlen h1 h2
    rcases Nat.eq_or_lt_of_le h1 with rfl | hlt
    · rw [copyLoop, List.getElem?_eq_none (by omega)]
    · rw [copyLoop, List.getElem?_eq_getElem hlt]
      simp only [hlen ▸ hlt, if_pos]
      exact ih (i + 1) _ (by simpa using hlen) (by omega) (by omega)

/-- C9: `ExceptionRecord::copy` is panic-free exactly when the source
record declares at most `EXCEPTION_MAXIMUM_PARAMETERS` parameters; under
that precondition it copies code, flags, chained-record pointer, address
and parameter count, sets `params[i]` to `ExceptionInformation[i]` for
every `i` below `NumberParameters`, and leaves the remaining `params`
entries unchanged; when `NumberParameters` exceeds the maximum, the loop
indexes past the end of the fixed-size arrays and panics. -/
theorem exception_record_copy_spec (self : ExceptionRecord)
    (r : EXCEPTION_RECORD)
    (hp : self.params.length = EXCEPTION_MAXIMUM_PARAMETERS)
    (hi : r.ExceptionInformation.length = EXCEPTION_MAXIMUM_PARAMETERS) :
    ((self.copy r).isSome = true ↔
      r.NumberParameters ≤ EXCEPTION_MAXIMUM_PARAMETERS) ∧
    (r.NumberParameters ≤ EXCEPTION_MAXIMUM_PARAMETERS →
      ∃ res, self.copy r = some res ∧
        res.code = r.ExceptionCode ∧ res.flags = r.ExceptionFlags ∧
        res.record = r.ExceptionRecord ∧
        res.address = r.ExceptionAddress ∧
        res.param_num = r.NumberParameters ∧
        (∀ j, j < r.NumberParameters →
          res.params[j]? = r.ExceptionInformation[j]?) ∧
        (∀ j, r.NumberParameters ≤ j →
          res.params[j]? = self.params[j]?)) := by
  have hmain : r.NumberParameters ≤ EXCEPTION_MAXIMUM_PARAMETERS →
      ∃ res, self.copy r = some res ∧
        res.code = r.ExceptionCode ∧ res.flags = r.ExceptionFlags ∧
        res.record = r.ExceptionRecord ∧
        res.address = r.ExceptionAddress ∧
        res.param_num = r.NumberParameters ∧
        (∀ j, j < r.NumberParameters →
          res.params[j]? = r.ExceptionInformation[j]?) ∧
        (∀ j, r.NumberParameters ≤ j →
          res.params[j]? = self.params[j]?) := by
    intro hle
    obtain ⟨ps, hps, _hlen, hout, hin⟩ :=
      copyLoop_some_spec r.ExceptionInformation r.NumberParameters 0
        self.params (by omega) (by omega)
    refine ⟨⟨r.ExceptionCode, r.ExceptionFlags, r.ExceptionRecord,
        r.ExceptionAddress, r.NumberParameters, ps⟩,
      ?_, rfl, rfl, rfl, rfl, rfl, ?_, ?_⟩
    · unfold ExceptionRecord.copy
      rw [hps]
      rfl
    · intro j hj
      exact hin j (by omega) (by omega)
    · intro j hj
      exact hout j (Or.inr (by omega))
  constructor
  · constructor
    · intro hsome
      by_contra hgt
      have hnone := copyLoop_none_of_overflow r.ExceptionInformation
        r.NumberParameters 0 self.params (by omega) (by omega) (by omega)
      unfold ExceptionRecord.copy at hsome
      rw [hnone] at hsome
      simp at hsome
    · intro hle
      obtain ⟨res, hres, -⟩ := hmain hle
      rw [hres]
      rfl
  · exact hmain

/-- Witness for C9: a record declaring 2 parameters over 15-slot arrays is
copied without panic, the first two params come from the source and the
third keeps its previous value. -/
theorem exception_record_copy_spec_witness :
    ∃ res,
      ExceptionRecord.copy ⟨0, 0, 0, 0, 0, List.replicate 15 9⟩
        ⟨7, 1, 2, 3, 2, 10 :: 20 :: List.replicate 13 0⟩ = some res ∧
      res.params[0]? = some 10 ∧ res.params[1]? = some 20 ∧
      res.params[2]? = some 9 := by
  obtain ⟨res, hres, _, _, _, _, _, hin, hout⟩ :=
    (exception_record_copy_spec ⟨0, 0, 0, 0, 0, List.replicate 15 9⟩
      ⟨7, 1, 2, 3, 2, 10 :: 20 :: List.replicate 13 0⟩
      (by decide) (by decide)).2 (by decide)
  refine ⟨res, hres, ?_, ?_, ?_⟩
  · rw [hin 0 (by decide)]; decide
  · rw [hin 1 (by decide)]; decide
  · rw [hout 2 (by decide)]; decide

/-! ## Process::from_name (src/nix/process.rs lines 64-66 and
src/os/windows/mod.rs lines 429-435)

Linux: `enum_pid().find(|&pid| process_cmdline(pid).get(0) == Some(name))
.and_then(Process::from_pid)` — the candidate key is the FIRST
COMMAND-LINE TOKEN, compared case-sensitively; the executable short name
(`comm`, used by `from_comm`) plays no role.  Windows:
`enum_process_filter_name(name).next()` filters the toolhelp walk with
`szExeFile.eq_ignore_ascii_case(name)` and then opens the pid.

The enumerations are modelled as snapshot lists of entries carrying their
per-process data; `Process::from_pid` succeeds on enumerated (live)
entries, so it is the identity on the found pid. -/

/-- One live Linux process as seen through procfs: pid, `comm`
(executable short name) and NUL-split command line. -/
structure LinuxProcEntry where
  pid : Nat
  comm : String
  cmdline : List String
deriving DecidableEq, Repr

/-- Source Linux `Process::from_name`: first pid whose `cmdline[0]`
equals `name`. -/
def from_name_linux (ps : List LinuxProcEntry) (name : String) :
    Option Nat :=
  (ps.find? fun e => e.cmdline.head? == some name).map (fun e => e.pid)

/-- ClaimedFromName (from the claim text, for comparison): first pid
whose EXECUTABLE NAME equals `name`, case-sensitively. -/
def from_name_claimed_linux (ps : List LinuxProcEntry) (name : String) :
    Option Nat :=
  (ps.find? fun e => e.comm == name).map (fun e => e.pid)

/-- One process as seen by the Windows toolhelp snapshot. -/
structure WinProcEntry where
  pid : Nat
  szExeFile : String
deriving DecidableEq, Repr

/-- ASCII lowercasing of one character, as done bytewise by Rust
`eq_ignore_ascii_case`. -/
def asciiLower (c : Char) : Char :=
  if 65 ≤ c.toNat ∧ c.toNat ≤ 90 then Char.ofNat (c.toNat + 32) else c

/-- Rust `str::eq_ignore_ascii_case`. -/
def eqIgnoreAsciiCase (a b : String) : Bool :=
  a.data.map asciiLower == b.data.map asciiLower

/-- Source Windows `Process::from_name`: first snapshot entry whose
`szExeFile` matches `name` ASCII-case-insensitively, then `open` it
(`openOk` is whether `OpenProcess` succeeds on that pid); an open failure
is an error result, modelled as `none`. -/
def from_name_windows (ws : List WinProcEntry) (name : String)
    (openOk : Nat → Bool) : Option Nat :=
  match ws.find? fun p => eqIgnoreAsciiCase p.szExeFile name with
  | none => none
  | some p => if openOk p.pid then some p.pid else none

/-- Rewriting form of `from_name_windows`: the match on the search result
is an `Option.bind`. -/
theorem from_name_windows_eq (ws : List WinProcEntry) (name : String)
    (openOk : Nat → Bool) :
    from_name_windows ws name openOk =
      (ws.find? fun p => eqIgnoreAsciiCase p.szExeFile name).bind
        (fun p => if openOk p.pid then some p.pid else none) := by
  unfold from_name_windows
  cases ws.find? fun p => eqIgnoreAsciiCase p.szExeFile name <;> rfl

/-- A process whose executable name is `foo` but which was invoked via its
full path, so its first command-line token is `/usr/bin/foo`. -/
def exProc : LinuxProcEntry := ⟨1, "foo", ["/usr/bin/foo"]⟩

/-- C7 counterexample: on Linux, `from_name` compares the first
command-line token, not the executable name: for the process `exProc`
(executable name `foo`, argv0 `/usr/bin/foo`), the code finds nothing
while the claimed executable-name rule finds pid 1. -/
theorem from_name_linux_counterexample :
    from_name_linux [exProc] ("foo") = none ∧
    from_name_claimed_linux [exProc] ("foo") = some 1 := by
  constructor <;> rfl

/-- C7 (amended): `from_name` returns the first entry of the process
enumeration whose name key matches `name` — where the key is the first
command-line token compared case-sensitively on Linux, and the executable
file name compared ASCII-case-insensitively on Windows (there followed by
a successful open) — and fails when no entry matches. -/
theorem from_name_first_match (ps : List LinuxProcEntry)
    (ws : List WinProcEntry) (name : String) (openOk : Nat → Bool)
    (pid : Nat) :
    (from_name_linux ps name = some pid ↔
      ∃ e l1 l2, ps = l1 ++ e :: l2 ∧ e.pid = pid ∧
        e.cmdline.head? = some name ∧
        ∀ x ∈ l1, x.cmdline.head? ≠ some name) ∧
    (from_name_windows ws name openOk = some pid ↔
      ∃ e l1 l2, ws = l1 ++ e :: l2 ∧ e.pid = pid ∧
        eqIgnoreAsciiCase e.szExeFile name = true ∧ openOk e.pid = true ∧
        ∀ x ∈ l1, eqIgnoreAsciiCase x.szExeFile name = false) := by
  constructor
  · constructor
    · intro h
      unfold from_name_linux at h
      rw [Option.map_eq_some'] at h
      obtain ⟨e, hfind, hpid⟩ := h
      rw [List.find?_eq_some] at hfind
      obtain ⟨hpe, l1, l2, hsplit, hall⟩ := hfind
      refine ⟨e, l1, l2, hsplit, hpid, by simpa using hpe, ?_⟩
      intro x hx
      simpa using hall x hx
    · rintro ⟨e, l1, l2, rfl, rfl, hhead, hnone⟩
      unfold from_name_linux
      have hfind : ((l1 ++ e :: l2).find?
          fun x => x.cmdline.head? == some name) = some e := by
        rw [List.find?_eq_some]
        exact ⟨by simpa using hhead, l1, l2, rfl,
          fun a ha => by simpa using hnone a ha⟩
      rw [hfind]
      rfl
  · constructor
    · intro h
      rw [from_name_windows_eq] at h
      rcases hf : ws.find? fun p => eqIgnoreAsciiCase p.szExeFile name with
        _ | p
      · rw [hf] at h
        exact absurd h (by simp)
      · rw [hf, Option.some_bind] at h
        rcases hok : openOk p.pid with _ | _
        · rw [hok] at h
          simp at h
        · rw [hok] at h
          simp only [if_true] at h
          obtain rfl := Option.some_injective _ h
          rw [List.find?_eq_some] at hf
          obtain ⟨hpe, l1, l2, hsplit, hall⟩ := hf
          exact ⟨p, l1, l2, hsplit, rfl, hpe, hok, fun x hx => by
            simpa using hall x hx⟩
    · rintro ⟨e, l1, l2, rfl, rfl, hmatch, hok, hnone⟩
      rw [from_name_windows_eq]
      have hfind : ((l1 ++ e :: l2).find?
          fun p => eqIgnoreAsciiCase p.szExeFile name) = some e := by
        rw [List.find?_eq_some]
        exact ⟨hmatch, l1, l2, rfl, fun a ha => by simpa using hnone a ha⟩
      rw [hfind, Option.some_bind, hok]
      rfl

end Spec2Proof
